import Mathlib

/-!
Verification of the GeoLocation repository's core module: geohash
encoding/decoding and haversine distance, as implemented in
`src/screens/HomeScreen.js`.

The bounding-box bisection of the geohash encoder and decoder only ever
manipulates dyadic rationals obtained by repeated halving from ±90 / ±180,
all of which JavaScript doubles represent exactly, so that part of the code
is embedded faithfully over `ℚ`.  JavaScript strings are modelled as
`List Char`.  The haversine distance uses transcendental functions and is
embedded over `ℝ`, with `Math.atan2` given its IEEE/JS case analysis.
-/

namespace GeoLocation

/-- The working bounding box `{latMin, latMax, lonMin, lonMax}` of the
encoder/decoder loops. -/
structure Box where
  latMin : ℚ
  latMax : ℚ
  lonMin : ℚ
  lonMax : ℚ
deriving DecidableEq

/-- The whole-Earth starting box (`latMin = -90`, `latMax = 90`,
`lonMin = -180`, `lonMax = 180`). -/
def initBox : Box := ⟨-90, 90, -180, 180⟩

/-- A box is well-formed when each axis interval is non-empty. -/
def Box.wf (b : Box) : Prop := b.latMin ≤ b.latMax ∧ b.lonMin ≤ b.lonMax

/-- The geohash base-32 alphabet, `BASE32` in the source. -/
def BASE32 : List Char := "0123456789bcdefghjkmnpqrstuvwxyz".toList

/-- Position of a character in a character list (used to build `CHAR_MAP`). -/
def indexIn : List Char → Char → Option ℕ
  | [], _ => none
  | c :: rest, ch => if c = ch then some 0 else (indexIn rest ch).map (· + 1)

/-- `CHAR_MAP` of the source: maps an alphabet character to its 5-bit value,
and any other character to `none` (JS: an absent object key). -/
def CHAR_MAP (ch : Char) : Option ℕ := indexIn BASE32 ch

/-- One iteration of the encoder's `while` loop body (without the 5-bit
flush): bisect the active axis at its midpoint, shift the accumulated index
and append bit 1 when the coordinate is strictly greater than the midpoint,
bit 0 otherwise. -/
def encodeStep (latitude longitude : ℚ) (evenBit : Bool) (idx : ℕ) (b : Box) :
    ℕ × Box :=
  if evenBit then
    let mid := (b.lonMin + b.lonMax) / 2
    if longitude > mid then (idx * 2 + 1, { b with lonMin := mid })
    else (idx * 2, { b with lonMax := mid })
  else
    let mid := (b.latMin + b.latMax) / 2
    if latitude > mid then (idx * 2 + 1, { b with latMin := mid })
    else (idx * 2, { b with latMax := mid })

/-- `n` consecutive iterations of the encoder loop body, threading the
accumulated index, the axis-alternation flag and the bounding box. -/
def encodeChunk (latitude longitude : ℚ) :
    ℕ → Bool → ℕ → Box → ℕ × Bool × Box
  | 0, evenBit, idx, b => (idx, evenBit, b)
  | n + 1, evenBit, idx, b =>
    let s := encodeStep latitude longitude evenBit idx b
    encodeChunk latitude longitude n (!evenBit) s.1 s.2

/-- The encoder loop producing `p` characters: each character flushes 5 bits
(`bit` reaching 5 in the source), via `BASE32.charAt(idx)`.  Returns the
produced characters together with the final axis flag and bounding box. -/
def encodeGeohashAux (latitude longitude : ℚ) :
    ℕ → Bool → Box → List Char × Bool × Box
  | 0, evenBit, b => ([], evenBit, b)
  | p + 1, evenBit, b =>
    let s := encodeChunk latitude longitude 5 evenBit 0 b
    let rest := encodeGeohashAux latitude longitude p s.2.1 s.2.2
    (BASE32.getD s.1 '0' :: rest.1, rest.2)

/-- `encodeGeohash` of the source: the base-32 string of length `precision`.
A non-positive precision is modelled by `precision = 0` (the source's
`while` loop body never runs and the empty string is returned). -/
def encodeGeohash (latitude longitude : ℚ) (precision : ℕ) : List Char :=
  (encodeGeohashAux latitude longitude precision true initBox).1

/-- The final bounding box that the encoder's loop has narrowed down to when
`encodeGeohash latitude longitude precision` returns. -/
def encodeCell (latitude longitude : ℚ) (precision : ℕ) : Box :=
  (encodeGeohashAux latitude longitude precision true initBox).2.2

/-- The decoder's mask sequence `16, 8, 4, 2, 1` (`for (let mask = 16;
mask >= 1; mask >>= 1)` in the source). -/
def MASKS : List ℕ := [16, 8, 4, 2, 1]

/-- The masks `2^(n-1), …, 2, 1`, the general shape of `MASKS`. -/
def masksOf : ℕ → List ℕ
  | 0 => []
  | n + 1 => 2 ^ n :: masksOf n

/-- The decoder's inner loop over one character's 5-bit value `cd`: for each
mask, move the active axis's lower bound up to the midpoint when the masked
bit is set, otherwise move the upper bound down, then flip the axis. -/
def decodeBits (cd : ℕ) : List ℕ → Bool → Box → Bool × Box
  | [], evenBit, b => (evenBit, b)
  | mask :: rest, evenBit, b =>
    let b' :=
      if evenBit then
        let mid := (b.lonMin + b.lonMax) / 2
        if cd &&& mask ≠ 0 then { b with lonMin := mid }
        else { b with lonMax := mid }
      else
        let mid := (b.latMin + b.latMax) / 2
        if cd &&& mask ≠ 0 then { b with latMin := mid }
        else { b with latMax := mid }
    decodeBits cd rest (!evenBit) b'

/-- The decoder's outer loop over the hash characters: look each character
up in `CHAR_MAP`, failing with the source's error message
`'Invalid geohash character: ' + ch` on an unknown character, otherwise
consume its 5 bits. -/
def decodeAux : List Char → Bool → Box → Except String Box
  | [], _, b => .ok b
  | ch :: rest, evenBit, b =>
    match CHAR_MAP ch with
    | none => .error ("Invalid geohash character: ".push ch)
    | some cd =>
      let s := decodeBits cd MASKS evenBit b
      decodeAux rest s.1 s.2

/-- `decodeGeohashCenter` of the source: runs the decoding loop from the
whole-Earth box and returns the center `(lat, lon)` of the final box. -/
def decodeGeohashCenter (hash : List Char) : Except String (ℚ × ℚ) :=
  match decodeAux hash true initBox with
  | .error e => .error e
  | .ok b => .ok ((b.latMin + b.latMax) / 2, (b.lonMin + b.lonMax) / 2)

/-- Validity of a coordinate over `ℚ`, as stated in the spec's data model. -/
def ValidCoord (lat lon : ℚ) : Prop :=
  -90 ≤ lat ∧ lat ≤ 90 ∧ -180 ≤ lon ∧ lon ≤ 180

instance (lat lon : ℚ) : Decidable (ValidCoord lat lon) := by
  unfold ValidCoord; infer_instance

/-- Degrees to radians, `toRad` in the source. -/
noncomputable def toRad (v : ℝ) : ℝ := v * Real.pi / 180

open Classical in
/-- `Math.atan2 y x` of JavaScript on real arguments (the NaN cases do not
arise over `ℝ`). -/
noncomputable def atan2 (y x : ℝ) : ℝ :=
  if 0 < x then Real.arctan (y / x)
  else if x < 0 ∧ 0 ≤ y then Real.arctan (y / x) + Real.pi
  else if x < 0 ∧ y < 0 then Real.arctan (y / x) - Real.pi
  else if x = 0 ∧ 0 < y then Real.pi / 2
  else if x = 0 ∧ y < 0 then -(Real.pi / 2)
  else 0

/-- `haversineMeters` of `src/screens/HomeScreen.js`: haversine great-circle
distance in meters with Earth radius 6 371 000 m. -/
noncomputable def haversineMeters (lat1 lon1 lat2 lon2 : ℝ) : ℝ :=
  let R : ℝ := 6371000
  let dLat := toRad (lat2 - lat1)
  let dLon := toRad (lon2 - lon1)
  let a := Real.sin (dLat / 2) ^ 2 +
    Real.cos (toRad lat1) * Real.cos (toRad lat2) * Real.sin (dLon / 2) ^ 2
  let c := 2 * atan2 (Real.sqrt a) (Real.sqrt (1 - a))
  R * c

/-- `distanceMeters` of the second source file, textually the same function
as `haversineMeters`. -/
noncomputable def distanceMeters (lat1 lon1 lat2 lon2 : ℝ) : ℝ :=
  let R : ℝ := 6371000
  let dLat := toRad (lat2 - lat1)
  let dLon := toRad (lon2 - lon1)
  let a := Real.sin (dLat / 2) ^ 2 +
    Real.cos (toRad lat1) * Real.cos (toRad lat2) * Real.sin (dLon / 2) ^ 2
  let c := 2 * atan2 (Real.sqrt a) (Real.sqrt (1 - a))
  R * c

/-- The spec's distance formula, written from §4.3 of the specification:
`a = sin²(Δlat/2) + cos(lat1)·cos(lat2)·sin²(Δlon/2)`,
`c = 2·atan2(√a, √(1−a))`, `distance = R·c` with `R = 6 371 000`. -/
noncomputable def distanceSpecFormula (lat1 lon1 lat2 lon2 : ℝ) : ℝ :=
  let R : ℝ := 6371000
  let a := Real.sin (toRad (lat2 - lat1) / 2) ^ 2 +
    Real.cos (toRad lat1) * Real.cos (toRad lat2) *
      Real.sin (toRad (lon2 - lon1) / 2) ^ 2
  let c := 2 * atan2 (Real.sqrt a) (Real.sqrt (1 - a))
  R * c

/-- Validity of a coordinate over `ℝ`. -/
def ValidCoordR (lat lon : ℝ) : Prop :=
  -90 ≤ lat ∧ lat ≤ 90 ∧ -180 ≤ lon ∧ lon ≤ 180

/-! ## Helper lemmas -/

theorem indexIn_eq_none_iff (ch : Char) :
    ∀ l : List Char, indexIn l ch = none ↔ ch ∉ l
  | [] => by simp [indexIn]
  | c :: rest => by
    by_cases h : c = ch
    · simp [indexIn, h]
    · simp [indexIn, h, Option.map_eq_none', indexIn_eq_none_iff ch rest,
        Ne.symm h]

theorem CHAR_MAP_eq_none_iff (ch : Char) : CHAR_MAP ch = none ↔ ch ∉ BASE32 :=
  indexIn_eq_none_iff ch BASE32

theorem CHAR_MAP_isSome (ch : Char) (h : ch ∈ BASE32) :
    ∃ cd, CHAR_MAP ch = some cd := by
  cases hm : CHAR_MAP ch with
  | none => exact absurd ((CHAR_MAP_eq_none_iff ch).mp hm) (not_not_intro h)
  | some cd => exact ⟨cd, rfl⟩

theorem CHAR_MAP_getD (idx : ℕ) (h : idx < 32) :
    CHAR_MAP (BASE32.getD idx '0') = some idx := by
  revert idx h
  decide

theorem getD_mem_or_eq (d : Char) :
    ∀ (l : List Char) (i : ℕ), l.getD i d ∈ l ∨ l.getD i d = d
  | [], _ => Or.inr rfl
  | c :: rest, 0 => Or.inl (List.mem_cons_self c rest)
  | c :: rest, i + 1 => by
    rcases getD_mem_or_eq d rest i with h | h
    · exact Or.inl (List.mem_cons_of_mem c h)
    · exact Or.inr h

theorem encodeGeohashAux_length (lat lon : ℚ) :
    ∀ (p : ℕ) (evenBit : Bool) (b : Box),
      (encodeGeohashAux lat lon p evenBit b).1.length = p
  | 0, _, _ => rfl
  | p + 1, evenBit, b => by
    simp [encodeGeohashAux, encodeGeohashAux_length lat lon p]

theorem encodeGeohashAux_mem (lat lon : ℚ) :
    ∀ (p : ℕ) (evenBit : Bool) (b : Box) (c : Char),
      c ∈ (encodeGeohashAux lat lon p evenBit b).1 → c ∈ BASE32
  | 0, _, _, c => by simp [encodeGeohashAux]
  | p + 1, evenBit, b, c => by
    intro hc
    simp only [encodeGeohashAux, List.mem_cons] at hc
    rcases hc with hc | hc
    · rcases getD_mem_or_eq '0' BASE32 (encodeChunk lat lon 5 evenBit 0 b).1
        with h | h
      · exact hc ▸ h
      · rw [hc, h]; decide
    · exact encodeGeohashAux_mem lat lon p _ _ c hc

theorem encodeGeohashAux_prefix (lat lon : ℚ) :
    ∀ (p : ℕ) (evenBit : Bool) (b : Box),
      (encodeGeohashAux lat lon p evenBit b).1 <+:
        (encodeGeohashAux lat lon (p + 1) evenBit b).1
  | 0, _, _ => List.nil_prefix
  | p + 1, evenBit, b => by
    obtain ⟨t, ht⟩ := encodeGeohashAux_prefix lat lon p
      (encodeChunk lat lon 5 evenBit 0 b).2.1 (encodeChunk lat lon 5 evenBit 0 b).2.2
    refine ⟨t, ?_⟩
    simp only [encodeGeohashAux, List.cons_append] at ht ⊢
    rw [ht]

theorem encodeStep_wf (lat lon : ℚ) (evenBit : Bool) (idx : ℕ) (b : Box)
    (h : b.wf) : (encodeStep lat lon evenBit idx b).2.wf := by
  obtain ⟨h1, h2⟩ := h
  simp only [encodeStep]
  split_ifs <;> refine ⟨?_, ?_⟩ <;> simp [Box.wf] <;> linarith

theorem encodeChunk_wf (lat lon : ℚ) :
    ∀ (n : ℕ) (evenBit : Bool) (idx : ℕ) (b : Box), b.wf →
      (encodeChunk lat lon n evenBit idx b).2.2.wf
  | 0, _, _, _, h => h
  | n + 1, evenBit, idx, b, h =>
    encodeChunk_wf lat lon n (!evenBit) _ _ (encodeStep_wf lat lon evenBit idx b h)

theorem encodeGeohashAux_wf (lat lon : ℚ) :
    ∀ (p : ℕ) (evenBit : Bool) (b : Box), b.wf →
      (encodeGeohashAux lat lon p evenBit b).2.2.wf
  | 0, _, _, h => h
  | p + 1, evenBit, b, h =>
    encodeGeohashAux_wf lat lon p _ _ (encodeChunk_wf lat lon 5 evenBit 0 b h)

theorem initBox_wf : initBox.wf := by constructor <;> norm_num [initBox]

theorem masksOf_five : masksOf 5 = MASKS := by decide

theorem and_two_pow_ne_zero_iff (a v n : ℕ) (hv : v < 2 ^ n) :
    (2 ^ n * a + v) &&& 2 ^ n ≠ 0 ↔ a % 2 = 1 := by
  have htb : (2 ^ n * a + v).testBit n = decide (a % 2 = 1) := by
    rw [Nat.testBit_mul_pow_two_add a hv n]
    simp
  rw [Nat.and_two_pow, htb]
  by_cases hm : a % 2 = 1 <;>
    simp [hm, (Nat.two_pow_pos n).ne']

theorem encodeChunk_replay (lat lon : ℚ) :
    ∀ (n : ℕ) (evenBit : Bool) (acc : ℕ) (b : Box),
      ∃ v, v < 2 ^ n ∧
        (encodeChunk lat lon n evenBit acc b).1 = 2 ^ n * acc + v ∧
        decodeBits (encodeChunk lat lon n evenBit acc b).1 (masksOf n) evenBit b
          = (encodeChunk lat lon n evenBit acc b).2
  | 0, evenBit, acc, b =>
    ⟨0, by norm_num, by simp [encodeChunk], by simp [masksOf, decodeBits, encodeChunk]⟩
  | n + 1, evenBit, acc, b => by
    have h2 : (2 : ℕ) ^ (n + 1) = 2 ^ n * 2 := pow_succ 2 n
    cases evenBit with
    | true =>
      by_cases hc : (b.lonMin + b.lonMax) / 2 < lon
      · have hchunk : encodeChunk lat lon (n + 1) true acc b =
            encodeChunk lat lon n false (acc * 2 + 1)
              { b with lonMin := (b.lonMin + b.lonMax) / 2 } := by
          simp [encodeChunk, encodeStep, hc]
        obtain ⟨v, hv, hidx, hdec⟩ := encodeChunk_replay lat lon n false
          (acc * 2 + 1) { b with lonMin := (b.lonMin + b.lonMax) / 2 }
        have hband : (encodeChunk lat lon n false (acc * 2 + 1)
            { b with lonMin := (b.lonMin + b.lonMax) / 2 }).1 &&& 2 ^ n ≠ 0 := by
          rw [hidx]
          exact (and_two_pow_ne_zero_iff (acc * 2 + 1) v n hv).mpr (by omega)
        refine ⟨2 ^ n + v, by omega, ?_, ?_⟩
        · rw [hchunk, hidx, pow_succ]; ring
        · rw [hchunk]
          simp only [masksOf, decodeBits, Bool.not_true, if_true]
          rw [if_pos hband]
          exact hdec
      · have hchunk : encodeChunk lat lon (n + 1) true acc b =
            encodeChunk lat lon n false (acc * 2)
              { b with lonMax := (b.lonMin + b.lonMax) / 2 } := by
          simp [encodeChunk, encodeStep, hc]
        obtain ⟨v, hv, hidx, hdec⟩ := encodeChunk_replay lat lon n false
          (acc * 2) { b with lonMax := (b.lonMin + b.lonMax) / 2 }
        have hband : ¬((encodeChunk lat lon n false (acc * 2)
            { b with lonMax := (b.lonMin + b.lonMax) / 2 }).1 &&& 2 ^ n ≠ 0) := by
          rw [hidx]
          intro hx
          have := (and_two_pow_ne_zero_iff (acc * 2) v n hv).mp hx
          omega
        refine ⟨v, by omega, ?_, ?_⟩
        · rw [hchunk, hidx, pow_succ]; ring
        · rw [hchunk]
          simp only [masksOf, decodeBits, Bool.not_true, if_true]
          rw [if_neg hband]
          exact hdec
    | false =>
      by_cases hc : (b.latMin + b.latMax) / 2 < lat
      · have hchunk : encodeChunk lat lon (n + 1) false acc b =
            encodeChunk lat lon n true (acc * 2 + 1)
              { b with latMin := (b.latMin + b.latMax) / 2 } := by
          simp [encodeChunk, encodeStep, hc]
        obtain ⟨v, hv, hidx, hdec⟩ := encodeChunk_replay lat lon n true
          (acc * 2 + 1) { b with latMin := (b.latMin + b.latMax) / 2 }
        have hband : (encodeChunk lat lon n true (acc * 2 + 1)
            { b with latMin := (b.latMin + b.latMax) / 2 }).1 &&& 2 ^ n ≠ 0 := by
          rw [hidx]
          exact (and_two_pow_ne_zero_iff (acc * 2 + 1) v n hv).mpr (by omega)
        refine ⟨2 ^ n + v, by omega, ?_, ?_⟩
        · rw [hchunk, hidx, pow_succ]; ring
        · rw [hchunk]
          simp only [masksOf, decodeBits, Bool.not_false]
          rw [if_neg (show ¬(false = true) by simp), if_pos hband]
          exact hdec
      · have hchunk : encodeChunk lat lon (n + 1) false acc b =
            encodeChunk lat lon n true (acc * 2)
              { b with latMax := (b.latMin + b.latMax) / 2 } := by
          simp [encodeChunk, encodeStep, hc]
        obtain ⟨v, hv, hidx, hdec⟩ := encodeChunk_replay lat lon n true
          (acc * 2) { b with latMax := (b.latMin + b.latMax) / 2 }
        have hband : ¬((encodeChunk lat lon n true (acc * 2)
            { b with latMax := (b.latMin + b.latMax) / 2 }).1 &&& 2 ^ n ≠ 0) := by
          rw [hidx]
          intro hx
          have := (and_two_pow_ne_zero_iff (acc * 2) v n hv).mp hx
          omega
        refine ⟨v, by omega, ?_, ?_⟩
        · rw [hchunk, hidx, pow_succ]; ring
        · rw [hchunk]
          simp only [masksOf, decodeBits, Bool.not_false]
          rw [if_neg (show ¬(false = true) by simp), if_neg hband]
          exact hdec

theorem encodeCell_wf (lat lon : ℚ) (p : ℕ) : (encodeCell lat lon p).wf :=
  encodeGeohashAux_wf lat lon p true initBox initBox_wf

theorem decodeAux_encodeAux (lat lon : ℚ) :
    ∀ (p : ℕ) (evenBit : Bool) (b : Box),
      decodeAux (encodeGeohashAux lat lon p evenBit b).1 evenBit b =
        .ok (encodeGeohashAux lat lon p evenBit b).2.2
  | 0, _, _ => rfl
  | p + 1, evenBit, b => by
    obtain ⟨v, hv, hidx, hdec⟩ := encodeChunk_replay lat lon 5 evenBit 0 b
    have h32 : (encodeChunk lat lon 5 evenBit 0 b).1 < 32 := by
      rw [hidx]; simpa using hv
    rw [masksOf_five] at hdec
    simp only [encodeGeohashAux, decodeAux, CHAR_MAP_getD _ h32, hdec]
    exact decodeAux_encodeAux lat lon p _ _

theorem decode_encode (lat lon : ℚ) (p : ℕ) :
    decodeGeohashCenter (encodeGeohash lat lon p) =
      .ok (((encodeCell lat lon p).latMin + (encodeCell lat lon p).latMax) / 2,
           ((encodeCell lat lon p).lonMin + (encodeCell lat lon p).lonMax) / 2) := by
  unfold decodeGeohashCenter encodeGeohash encodeCell
  rw [decodeAux_encodeAux]

theorem encodeCell_eq_of_encode_eq (lat lon lat2 lon2 : ℚ) (p : ℕ)
    (h : encodeGeohash lat2 lon2 p = encodeGeohash lat lon p) :
    encodeCell lat2 lon2 p = encodeCell lat lon p := by
  have h1 := decodeAux_encodeAux lat lon p true initBox
  have h2 := decodeAux_encodeAux lat2 lon2 p true initBox
  unfold encodeGeohash at h
  rw [h, h1] at h2
  exact (Except.ok.inj h2).symm

theorem decodeAux_ok_of_valid :
    ∀ (hash : List Char) (evenBit : Bool) (b : Box),
      (∀ c ∈ hash, c ∈ BASE32) → ∃ b', decodeAux hash evenBit b = .ok b'
  | [], _, b, _ => ⟨b, rfl⟩
  | ch :: rest, evenBit, b, h => by
    obtain ⟨cd, hcd⟩ := CHAR_MAP_isSome ch (h ch (List.mem_cons_self ch rest))
    obtain ⟨b', hb'⟩ := decodeAux_ok_of_valid rest
      (decodeBits cd MASKS evenBit b).1 (decodeBits cd MASKS evenBit b).2
      (fun c hc => h c (List.mem_cons_of_mem ch hc))
    exact ⟨b', by simp only [decodeAux, hcd]; exact hb'⟩

theorem decodeAux_error_first :
    ∀ (pre : List Char) (evenBit : Bool) (b : Box) (c : Char) (post : List Char),
      (∀ c' ∈ pre, c' ∈ BASE32) → c ∉ BASE32 →
      decodeAux (pre ++ c :: post) evenBit b =
        .error ("Invalid geohash character: ".push c)
  | [], _, b, c, post, _, hc => by
    have hnone : CHAR_MAP c = none := (CHAR_MAP_eq_none_iff c).mpr hc
    simp [decodeAux, hnone]
  | ch :: pre, evenBit, b, c, post, hpre, hc => by
    obtain ⟨cd, hcd⟩ := CHAR_MAP_isSome ch (hpre ch (List.mem_cons_self ch pre))
    simp only [List.cons_append, decodeAux, hcd]
    exact decodeAux_error_first pre _ _ c post
      (fun c' h' => hpre c' (List.mem_cons_of_mem ch h')) hc

/-! ## Claim theorems -/

/-- C2: for every coordinate with latitude in [-90,90] and longitude in
[-180,180] and every precision `p ≥ 1`, `encodeGeohash` returns a string of
length exactly `p` whose characters all belong to the 32-symbol alphabet
`"0123456789bcdefghjkmnpqrstuvwxyz"`. -/
theorem encode_length_and_alphabet (latitude longitude : ℚ)
    (h : ValidCoord latitude longitude) (precision : ℕ) (hp : 1 ≤ precision) :
    (encodeGeohash latitude longitude precision).length = precision ∧
    ∀ c ∈ encodeGeohash latitude longitude precision, c ∈ BASE32 :=
  ⟨encodeGeohashAux_length latitude longitude precision true initBox,
   fun c hc => encodeGeohashAux_mem latitude longitude precision true initBox c hc⟩

theorem encode_length_and_alphabet_app :
    (encodeGeohash 0 0 1).length = 1 ∧ ∀ c ∈ encodeGeohash 0 0 1, c ∈ BASE32 :=
  encode_length_and_alphabet 0 0 (by decide) 1 (by decide)

/-- C3: a coordinate value exactly equal to the active axis's current
midpoint takes the bit-0 branch of `encodeStep` (the upper bound moves down
to the midpoint), on both the longitude (`evenBit = true`) and latitude
(`evenBit = false`) axes; and the first bit of each axis when encoding
`lat = 0, lon = 0` from the whole-Earth box is bit 0 (the accumulated index
after the first two bisection steps is 0). -/
theorem midpoint_takes_zero_branch (latitude longitude : ℚ) (idx : ℕ) (b : Box) :
    (longitude = (b.lonMin + b.lonMax) / 2 →
      encodeStep latitude longitude true idx b =
        (idx * 2, { b with lonMax := (b.lonMin + b.lonMax) / 2 })) ∧
    (latitude = (b.latMin + b.latMax) / 2 →
      encodeStep latitude longitude false idx b =
        (idx * 2, { b with latMax := (b.latMin + b.latMax) / 2 })) ∧
    encodeChunk 0 0 2 true 0 initBox =
      (0, true, { latMin := -90, latMax := 0, lonMin := -180, lonMax := 0 }) := by
  refine ⟨?_, ?_, by with_unfolding_all rfl⟩
  · intro hmid
    simp [encodeStep, hmid]
  · intro hmid
    simp [encodeStep, hmid]

theorem midpoint_takes_zero_branch_app :
    encodeStep 0 0 true 3 initBox =
      (3 * 2, { initBox with lonMax := (initBox.lonMin + initBox.lonMax) / 2 }) :=
  (midpoint_takes_zero_branch 0 0 3 initBox).1 (by with_unfolding_all rfl)

/-- C4: for every valid coordinate and every precision `p ≥ 1`, the
precision-`p` geohash is a prefix of the precision-`(p+1)` geohash. -/
theorem encode_prefix_monotone (latitude longitude : ℚ)
    (h : ValidCoord latitude longitude) (p : ℕ) (hp : 1 ≤ p) :
    encodeGeohash latitude longitude p <+: encodeGeohash latitude longitude (p + 1) :=
  encodeGeohashAux_prefix latitude longitude p true initBox

theorem encode_prefix_monotone_app :
    encodeGeohash 0 0 1 <+: encodeGeohash 0 0 2 :=
  encode_prefix_monotone 0 0 (by decide) 1 (by decide)

/-- C5: for every valid coordinate and precision `p ≥ 1`, decoding the
encoded geohash succeeds and yields a point inside the final bounding box
the encoder computed; moreover the decoded point lies inside the cell the
encoder computes for any coordinate sharing that hash. -/
theorem decode_center_in_encoder_cell (latitude longitude : ℚ)
    (h : ValidCoord latitude longitude) (precision : ℕ) (hp : 1 ≤ precision) :
    ∃ q : ℚ × ℚ,
      decodeGeohashCenter (encodeGeohash latitude longitude precision) = .ok q ∧
      ((encodeCell latitude longitude precision).latMin ≤ q.1 ∧
       q.1 ≤ (encodeCell latitude longitude precision).latMax ∧
       (encodeCell latitude longitude precision).lonMin ≤ q.2 ∧
       q.2 ≤ (encodeCell latitude longitude precision).lonMax) ∧
      ∀ lat2 lon2 : ℚ,
        encodeGeohash lat2 lon2 precision = encodeGeohash latitude longitude precision →
        (encodeCell lat2 lon2 precision).latMin ≤ q.1 ∧
        q.1 ≤ (encodeCell lat2 lon2 precision).latMax ∧
        (encodeCell lat2 lon2 precision).lonMin ≤ q.2 ∧
        q.2 ≤ (encodeCell lat2 lon2 precision).lonMax := by
  obtain ⟨hwlat, hwlon⟩ := encodeCell_wf latitude longitude precision
  refine ⟨_, decode_encode latitude longitude precision,
    ⟨by linarith, by linarith, by linarith, by linarith⟩, ?_⟩
  intro lat2 lon2 hEq
  rw [encodeCell_eq_of_encode_eq latitude longitude lat2 lon2 precision hEq]
  exact ⟨by linarith, by linarith, by linarith, by linarith⟩

theorem decode_center_in_encoder_cell_app :
    ∃ q : ℚ × ℚ,
      decodeGeohashCenter (encodeGeohash 0 0 1) = .ok q ∧
      ((encodeCell 0 0 1).latMin ≤ q.1 ∧
       q.1 ≤ (encodeCell 0 0 1).latMax ∧
       (encodeCell 0 0 1).lonMin ≤ q.2 ∧
       q.2 ≤ (encodeCell 0 0 1).lonMax) ∧
      ∀ lat2 lon2 : ℚ,
        encodeGeohash lat2 lon2 1 = encodeGeohash 0 0 1 →
        (encodeCell lat2 lon2 1).latMin ≤ q.1 ∧
        q.1 ≤ (encodeCell lat2 lon2 1).latMax ∧
        (encodeCell lat2 lon2 1).lonMin ≤ q.2 ∧
        q.2 ≤ (encodeCell lat2 lon2 1).lonMax :=
  decode_center_in_encoder_cell 0 0 (by decide) 1 (by decide)

/-- C6 counterexample: `encodeGeohash` signals no error on invalid input.
With latitude 91 (outside [-90,90]) it still returns the 1-character hash
`"g"`, with longitude 200 (outside [-180,180]) it returns `"r"`, and with
precision 0 (< 1) it silently returns the empty string; its return type has
no error channel at all, so neither `InvalidCoordinate` nor
`InvalidPrecision` is ever signalled. -/
theorem encode_no_validation_cex :
    encodeGeohash 91 0 1 = ['g'] ∧ encodeGeohash 0 200 1 = ['r'] ∧
    encodeGeohash 0 0 0 = [] :=
  ⟨by with_unfolding_all rfl, by with_unfolding_all rfl, by with_unfolding_all rfl⟩

/-- C6 amended: `encodeGeohash` performs no input validation whatsoever.
For every latitude, longitude and precision — including latitudes outside
[-90,90], longitudes outside [-180,180], and precision 0 — it returns an
ordinary geohash string of exactly the requested length, signalling no
error. -/
theorem encode_total_no_error (latitude longitude : ℚ) (precision : ℕ) :
    (encodeGeohash latitude longitude precision).length = precision :=
  encodeGeohashAux_length latitude longitude precision true initBox

/-- C7 counterexample: the decoder's error does not identify the position of
the offending character. The invalid character `'a'` occurs at position 0 in
`"a0"` and at position 1 in `"0a"`, yet both decode calls fail with the very
same error value, so the error cannot determine the position. -/
theorem decode_error_position_cex :
    decodeGeohashCenter ['a', '0'] = .error ("Invalid geohash character: ".push 'a') ∧
    decodeGeohashCenter ['0', 'a'] = .error ("Invalid geohash character: ".push 'a') :=
  ⟨by with_unfolding_all rfl, by with_unfolding_all rfl⟩

/-- C7 amended: for every input containing a character outside the 32-symbol
alphabet, `decodeGeohashCenter` fails on the first such character with an
error identifying the offending character (but not its position); strings of
valid characters never trigger this error. -/
theorem decode_first_invalid_char (hash : List Char) :
    ((∀ c ∈ hash, c ∈ BASE32) → ∃ q, decodeGeohashCenter hash = .ok q) ∧
    ∀ (pre : List Char) (c : Char) (post : List Char),
      hash = pre ++ c :: post → (∀ c' ∈ pre, c' ∈ BASE32) → c ∉ BASE32 →
      decodeGeohashCenter hash = .error ("Invalid geohash character: ".push c) := by
  constructor
  · intro hvalid
    obtain ⟨b', hb'⟩ := decodeAux_ok_of_valid hash true initBox hvalid
    exact ⟨_, by unfold decodeGeohashCenter; rw [hb']⟩
  · intro pre c post hsplit hpre hc
    unfold decodeGeohashCenter
    rw [hsplit, decodeAux_error_first pre true initBox c post hpre hc]

theorem decode_first_invalid_char_app :
    (∃ q, decodeGeohashCenter ['0'] = .ok q) ∧
    decodeGeohashCenter ['a'] = .error ("Invalid geohash character: ".push 'a') :=
  ⟨(decode_first_invalid_char ['0']).1 (by decide),
   (decode_first_invalid_char ['a']).2 [] 'a' [] rfl (by decide) (by decide)⟩

/-- C10: decoding the empty string succeeds and returns the center of the
whole-Earth bounding box, the coordinate `(0, 0)`. -/
theorem decode_empty_center : decodeGeohashCenter [] = .ok (0, 0) := by
  with_unfolding_all rfl

/-- C1: for every pair of coordinates, both source distance functions
(`haversineMeters` and its duplicate `distanceMeters`) compute exactly the
spec's haversine formula with Earth radius 6 371 000 m: radian conversion of
the latitude/longitude differences, `a = sin²(Δlat/2) +
cos(lat1)·cos(lat2)·sin²(Δlon/2)`, `c = 2·atan2(√a, √(1−a))`, `R·c`. -/
theorem distance_follows_spec_formula (lat1 lon1 lat2 lon2 : ℝ) :
    haversineMeters lat1 lon1 lat2 lon2 = distanceSpecFormula lat1 lon1 lat2 lon2 ∧
    distanceMeters lat1 lon1 lat2 lon2 = distanceSpecFormula lat1 lon1 lat2 lon2 :=
  ⟨rfl, rfl⟩

/-- C8: the distance function is symmetric in its two coordinate arguments,
for all valid coordinates. -/
theorem haversine_symmetric (lat1 lon1 lat2 lon2 : ℝ)
    (h1 : ValidCoordR lat1 lon1) (h2 : ValidCoordR lat2 lon2) :
    haversineMeters lat1 lon1 lat2 lon2 = haversineMeters lat2 lon2 lat1 lon1 := by
  have key : ∀ x y : ℝ,
      Real.sin (toRad (x - y) / 2) ^ 2 = Real.sin (toRad (y - x) / 2) ^ 2 := by
    intro x y
    have hxy : toRad (x - y) / 2 = -(toRad (y - x) / 2) := by
      unfold toRad; ring
    rw [hxy, Real.sin_neg]
    ring
  simp only [haversineMeters]
  rw [key lat2 lat1, key lon2 lon1,
    mul_comm (Real.cos (toRad lat1)) (Real.cos (toRad lat2))]

theorem haversine_symmetric_app :
    ValidCoordR 0 0 ∧ ValidCoordR 1 1 ∧
    haversineMeters 0 0 1 1 = haversineMeters 1 1 0 0 :=
  ⟨by norm_num [ValidCoordR], by norm_num [ValidCoordR],
   haversine_symmetric 0 0 1 1 (by norm_num [ValidCoordR])
     (by norm_num [ValidCoordR])⟩

/-- C9: the distance from any valid coordinate to itself (identical latitude
and longitude) is exactly 0. -/
theorem haversine_self_zero (lat lon : ℝ) (h : ValidCoordR lat lon) :
    haversineMeters lat lon lat lon = 0 := by
  have ha : atan2 0 1 = 0 := by
    unfold atan2
    rw [if_pos (one_pos : (0 : ℝ) < 1)]
    simp
  simp [haversineMeters, toRad, sub_self, ha]

theorem haversine_self_zero_app :
    ValidCoordR 0 0 ∧ haversineMeters 0 0 0 0 = 0 :=
  ⟨by norm_num [ValidCoordR],
   haversine_self_zero 0 0 (by norm_num [ValidCoordR])⟩

end GeoLocation
